import Mathlib

/-! Shallow embedding of the todo_cli task manager: the data model, the CSV
storage codec, and the store operations of src/task.rs and src/main.rs,
together with machine-checked statements of the specification's claims. -/

namespace TodoCli

/-- Mirrors `struct Task` in src/task.rs: id, title, description, done flag. -/
structure Task where
  id : String
  title : String
  description : String
  is_done : Bool
  deriving DecidableEq, Repr

/-- Mirrors `AddArgs` in src/main.rs. -/
structure AddArgs where
  title : String
  description : String
  deriving DecidableEq, Repr

/-- Mirrors `EditArgs` in src/main.rs: a required id and three optional fields. -/
structure EditArgs where
  id : String
  title : Option String
  description : Option String
  is_done : Option Bool
  deriving DecidableEq, Repr

/-- Mirrors `RemoveArgs` in src/main.rs. -/
structure RemoveArgs where
  id : String
  deriving DecidableEq, Repr

/-- Error kinds of the store.  The source surfaces them as `Box<dyn Error>`
values; the spec names the kinds `NotFoundError` and `DecodeError`. -/
inductive TaskError where
  | notFound
  | decode
  deriving DecidableEq, Repr

/-- Mirrors `struct Tasks` in src/task.rs: the in-memory collection plus the
backing file, modelled as the content currently stored at `file_path`
(`none` when no file exists there). -/
structure Tasks where
  tasks : List Task
  file : Option (List Char)
  deriving DecidableEq, Repr

/-- Modelled from the spec: the storage codec's field encoding (spec section 4.2),
as performed by the csv crate that `write_tasks_to_csv` delegates to (the crate's
source is not part of this repository).  A field needs quoting when it contains
the delimiter, a quote, or a line break. -/
def needsQuote (s : List Char) : Bool :=
  s.any (fun c => c = ',' || c = '"' || c = '\n' || c = '\r')

/-- Modelled from the spec: an embedded quote is doubled inside a quoted field. -/
def escapeChar (c : Char) : List Char :=
  if c = '"' then ['"', '"'] else [c]

/-- Modelled from the spec: a field is written verbatim, or quoted with embedded
quotes doubled when it contains a delimiter, quote, or line break. -/
def escapeField (s : List Char) : List Char :=
  if needsQuote s then '"' :: (s.map escapeChar).flatten ++ ['"'] else s

/-- Interleaves a separator between the encoded fields of one record. -/
def joinSep (sep : List Char) : List (List Char) → List Char
  | [] => []
  | [f] => f
  | f :: fs => f ++ sep ++ joinSep sep fs

/-- One CSV record: the encoded fields separated by commas. -/
def encodeRecord (fs : List (List Char)) : List Char :=
  joinSep [','] (fs.map escapeField)

/-- One CSV line: a record followed by the line terminator. -/
def encodeLine (fs : List (List Char)) : List Char :=
  encodeRecord fs ++ ['\n']

/-- The literal boolean token written for `true`. -/
def trueChars : List Char := ['t', 'r', 'u', 'e']

/-- The literal boolean token written for `false`. -/
def falseChars : List Char := ['f', 'a', 'l', 's', 'e']

/-- Header name of the id column. -/
def idHeader : List Char := ['i', 'd']

/-- Header name of the title column. -/
def titleHeader : List Char := ['t', 'i', 't', 'l', 'e']

/-- Header name of the description column. -/
def descriptionHeader : List Char :=
  ['d', 'e', 's', 'c', 'r', 'i', 'p', 't', 'i', 'o', 'n']

/-- Header name of the done column (serde uses the field name `is_done`). -/
def isDoneHeader : List Char := ['i', 's', '_', 'd', 'o', 'n', 'e']

/-- The header record serde derives from the `Task` struct's field names. -/
def headerFields : List (List Char) := [idHeader, titleHeader, descriptionHeader, isDoneHeader]

/-- The header line that precedes the task records. -/
def headerLine : List Char := encodeLine headerFields

/-- The four fields serde writes for one task, in declaration order. -/
def taskFields (t : Task) : List (List Char) :=
  [t.id.data, t.title.data, t.description.data, if t.is_done then trueChars else falseChars]

/-- Serialization performed by `write_tasks_to_csv`: the csv writer emits the
header lazily on the first `serialize` call, so an empty collection produces
empty file content (no header row), and a nonempty one produces the header
line followed by one line per task in order. -/
def encodeTasks (ts : List Task) : List Char :=
  match ts with
  | [] => []
  | _ => headerLine ++ (ts.map (fun t => encodeLine (taskFields t))).flatten

/-- Modelled from the spec: reading the body of a quoted field.  A doubled
quote is an escaped quote; a single quote closes the field; a missing closing
quote ends the field at the end of input. -/
def parseQuoted : List Char → List Char × List Char
  | [] => ([], [])
  | [c] => if c = '"' then ([], []) else ([c], [])
  | c :: d :: rest =>
    if c = '"' then
      if d = '"' then
        let p := parseQuoted rest
        ('"' :: p.1, p.2)
      else ([], d :: rest)
    else
      let p := parseQuoted (d :: rest)
      (c :: p.1, p.2)

/-- Modelled from the spec: reading an unquoted field, which extends to the
next delimiter or line terminator (left in the remainder). -/
def parseUnquoted : List Char → List Char × List Char
  | [] => ([], [])
  | c :: rest =>
    if c = ',' || c = '\n' then ([], c :: rest)
    else
      let p := parseUnquoted rest
      (c :: p.1, p.2)

/-- Modelled from the spec: reading one field.  A leading quote opens a quoted
field; any trailing characters before the next separator are appended. -/
def parseField (l : List Char) : List Char × List Char :=
  match l with
  | '"' :: rest =>
    let p := parseQuoted rest
    let q := parseUnquoted p.2
    (p.1 ++ q.1, q.2)
  | _ => parseUnquoted l

/-- Fuel-indexed record reader: fields separated by commas, up to the line
terminator.  The fuel dominates the input length, so the fallback is inert. -/
def parseRecordAux : Nat → List Char → List (List Char) × List Char
  | 0, l => ([(parseField l).1], (parseField l).2)
  | fuel + 1, l =>
    match (parseField l).2 with
    | [] => ([(parseField l).1], [])
    | c :: rest2 =>
      if c = ',' then
        let q := parseRecordAux fuel rest2
        ((parseField l).1 :: q.1, q.2)
      else ([(parseField l).1], rest2)

/-- Reads one record and returns the remainder after its terminating newline. -/
def parseRecord (l : List Char) : List (List Char) × List Char :=
  parseRecordAux l.length l

/-- Fuel-indexed reader of all records of the input. -/
def parseRecordsAux : Nat → List Char → List (List (List Char))
  | _, [] => []
  | 0, _ :: _ => []
  | fuel + 1, c :: rest =>
    let q := parseRecord (c :: rest)
    q.1 :: parseRecordsAux fuel q.2

/-- Reads all records of the input. -/
def parseRecords (l : List Char) : List (List (List Char)) :=
  parseRecordsAux l.length l

/-- Modelled from the spec: the csv reader skips lines that are completely
empty, which parse as a record holding a single empty field. -/
def recordsOf (l : List Char) : List (List (List Char)) :=
  (parseRecords l).filter (fun r => r ≠ [[]])

/-- Modelled from the spec: serde parses the done column from the literal
true/false token pair; anything else is a decode failure. -/
def parseBool (s : List Char) : Option Bool :=
  if s = trueChars then some true
  else if s = falseChars then some false
  else none

/-- Looks a field up by its header name, the way serde maps a record's fields
onto struct fields through the header row. -/
def lookupField (hdr rec : List (List Char)) (name : List Char) : Option (List Char) :=
  match hdr.findIdx? (fun f => f = name) with
  | some i => rec[i]?
  | none => none

/-- Modelled from the spec: one record is decoded into a `Task` through the
header.  A record whose field count differs from the header's, or whose done
column is not a boolean token, or which lacks a required column, fails. -/
def decodeTask (hdr rec : List (List Char)) : Option Task :=
  if rec.length = hdr.length then
    match lookupField hdr rec idHeader, lookupField hdr rec titleHeader,
        lookupField hdr rec descriptionHeader,
        (lookupField hdr rec isDoneHeader).bind parseBool with
    | some i, some t, some d, some b => some (Task.mk (String.mk i) (String.mk t) (String.mk d) b)
    | _, _, _, _ => none
  else none

/-- The record loop of `read_tasks_from_csv`: each record is decoded and
pushed in order; the first failure aborts the loop, keeping the tasks pushed
so far and reporting the error. -/
def readTasksAux (hdr : List (List Char)) : List (List (List Char)) → List Task × Bool
  | [] => ([], false)
  | r :: rs =>
    match decodeTask hdr r with
    | none => ([], true)
    | some t =>
      let p := readTasksAux hdr rs
      (t :: p.1, p.2)

/-- Mirrors `Tasks::read_tasks_from_csv`: an absent file yields the empty
collection; otherwise the first record is the header and each further record
is decoded into a task, the first malformed record aborting the read with a
decode error while the tasks already pushed remain in the vector. -/
def read_tasks_from_csv (file : Option (List Char)) : List Task × Option TaskError :=
  match file with
  | none => ([], none)
  | some l =>
    match recordsOf l with
    | [] => ([], none)
    | hdr :: rest =>
      let p := readTasksAux hdr rest
      (p.1, if p.2 then some TaskError.decode else none)

/-- Mirrors `Tasks::write_tasks_to_csv`: the backing file's entire content is
replaced by the serialization of the current in-memory collection (the source
truncates an existing file, or creates the file and any missing parent
directories first). -/
def write_tasks_to_csv (s : Tasks) : Tasks :=
  { s with file := some (encodeTasks s.tasks) }

/-- The alphanumeric alphabet of rand's `Alphanumeric` distribution, used by
`generate_task_id` (the crate's source is not part of this repository). -/
def alphanumericChars : List Char :=
  ['A', 'B', 'C', 'D', 'E', 'F', 'G', 'H', 'I', 'J', 'K', 'L', 'M',
   'N', 'O', 'P', 'Q', 'R', 'S', 'T', 'U', 'V', 'W', 'X', 'Y', 'Z',
   'a', 'b', 'c', 'd', 'e', 'f', 'g', 'h', 'i', 'j', 'k', 'l', 'm',
   'n', 'o', 'p', 'q', 'r', 's', 't', 'u', 'v', 'w', 'x', 'y', 'z',
   '0', '1', '2', '3', '4', '5', '6', '7', '8', '9']

/-- Mirrors `Tasks::generate_task_id`: eight draws from the alphanumeric
alphabet.  The pseudorandom source is abstracted as the draw stream `g`;
no uniqueness check against existing ids is performed. -/
def generate_task_id (g : Nat → Fin 62) : List Char :=
  (List.range 8).map (fun i => alphanumericChars.getD (g i).val 'A')

/-- Mirrors `Tasks::add_task`: reload from the file, append a fresh task with
a generated id and `is_done = false`, and persist the full collection. -/
def add_task (s : Tasks) (g : Nat → Fin 62) (a : AddArgs) : Tasks × Except TaskError String :=
  match read_tasks_from_csv s.file with
  | (ts, some e) => ({ s with tasks := ts }, Except.error e)
  | (ts, none) =>
    let s2 := { s with
      tasks := ts ++ [Task.mk (String.mk (generate_task_id g)) a.title a.description false] }
    (write_tasks_to_csv s2, Except.ok ("The task was successfully added."))

/-- The for-loop of `Tasks::edit_task`: the first task whose id matches has
each provided optional field overwritten, and the loop breaks; the flag
reports whether a match was found. -/
def applyEdit (e : EditArgs) (t : Task) : Task :=
  { t with
    title := e.title.getD t.title,
    description := e.description.getD t.description,
    is_done := e.is_done.getD t.is_done }

/-- The traversal inside `Tasks::edit_task`: edit the first match, then break. -/
def editLoop (e : EditArgs) : List Task → List Task × Bool
  | [] => ([], false)
  | t :: ts =>
    if t.id = e.id then (applyEdit e t :: ts, true)
    else
      let p := editLoop e ts
      (t :: p.1, p.2)

/-- Mirrors `Tasks::edit_task`: reload, edit the first matching task, persist
only when a match was found, otherwise fail with the not-found error. -/
def edit_task (s : Tasks) (e : EditArgs) : Tasks × Except TaskError String :=
  match read_tasks_from_csv s.file with
  | (ts, some er) => ({ s with tasks := ts }, Except.error er)
  | (ts, none) =>
    let p := editLoop e ts
    let s2 := { s with tasks := p.1 }
    if p.2 then (write_tasks_to_csv s2, Except.ok ("The task was successfully edited."))
    else (s2, Except.error TaskError.notFound)

/-- Mirrors `Tasks::remove_task`: reload, retain every task whose id differs,
fail with the not-found error when the length did not change, and otherwise
persist the shrunken collection. -/
def remove_task (s : Tasks) (r : RemoveArgs) : Tasks × Except TaskError String :=
  match read_tasks_from_csv s.file with
  | (ts, some er) => ({ s with tasks := ts }, Except.error er)
  | (ts, none) =>
    let kept := ts.filter (fun t => t.id != r.id)
    let s2 := { s with tasks := kept }
    if kept.length = ts.length then (s2, Except.error TaskError.notFound)
    else (write_tasks_to_csv s2, Except.ok ("The task was successfully removed."))

/-- Mirrors `Tasks::list_task`: reload and render.  The prettytable rendering
to standard output is not modelled; the returned list is the sequence of
rendered rows, in order. -/
def list_task (s : Tasks) : Tasks × Except TaskError (List Task) :=
  match read_tasks_from_csv s.file with
  | (ts, some er) => ({ s with tasks := ts }, Except.error er)
  | (ts, none) => ({ s with tasks := ts }, Except.ok ts)

/-- A sequence of `add_task` invocations, each with its own draw stream and
argument pair, threading the store state. -/
def addMany : List ((Nat → Fin 62) × String × String) → Tasks → Tasks
  | [], s => s
  | (g, t, d) :: rest, s => addMany rest (add_task s g (AddArgs.mk t d)).1

/-- The tasks a run of `addMany` freshly creates, in creation order. -/
def newTasks (l : List ((Nat → Fin 62) × String × String)) : List Task :=
  l.map (fun p => Task.mk (String.mk (generate_task_id p.1)) p.2.1 p.2.2 false)

/-- The remainder after one field either is empty or starts at a separator:
the next delimiter or the line terminator. -/
def sepStart (l : List Char) : Prop :=
  l = [] ∨ (∃ t, l = ',' :: t) ∨ (∃ t, l = '\n' :: t)

theorem parseQuoted_escaped : ∀ (s rest : List Char), rest.head? ≠ some '"' →
    parseQuoted ((s.map escapeChar).flatten ++ '"' :: rest) = (s, rest) := by
  intro s
  induction s with
  | nil =>
    intro rest h
    cases rest with
    | nil => simp [parseQuoted]
    | cons d r =>
      have hd : d ≠ '"' := by
        intro he
        exact h (by simp [he])
      simp [parseQuoted, hd]
  | cons a s ih =>
    intro rest h
    by_cases ha : a = '"'
    · subst ha
      have : ((('"' :: s).map escapeChar).flatten ++ '"' :: rest) =
          '"' :: '"' :: ((s.map escapeChar).flatten ++ '"' :: rest) := by
        simp [escapeChar]
      rw [this]
      simp [parseQuoted, ih rest h]
    · obtain ⟨d, X, hX⟩ : ∃ d X, (s.map escapeChar).flatten ++ '"' :: rest = d :: X := by
        cases hq : (s.map escapeChar).flatten with
        | nil => exact ⟨'"', rest, by simp⟩
        | cons x xs => exact ⟨x, xs ++ '"' :: rest, by simp⟩
      have : (((a :: s).map escapeChar).flatten ++ '"' :: rest) =
          a :: d :: X := by
        simp [escapeChar, ha, hX]
      rw [this]
      simp only [parseQuoted, if_neg ha]
      rw [← hX, ih rest h]

theorem parseUnquoted_clean : ∀ (s rest : List Char),
    (∀ c ∈ s, ¬(c = ',' ∨ c = '\n')) → sepStart rest →
    parseUnquoted (s ++ rest) = (s, rest) := by
  intro s
  induction s with
  | nil =>
    intro rest _ hrest
    rcases hrest with h | ⟨t, h⟩ | ⟨t, h⟩ <;> subst h <;> simp [parseUnquoted]
  | cons a s ih =>
    intro rest hs hrest
    have ha : ¬(a = ',' ∨ a = '\n') := hs a (by simp)
    have ha' : (decide (a = ',') || decide (a = '\n')) = false := by
      simp only [Bool.or_eq_false_iff, decide_eq_false_iff_not]
      exact ⟨fun h => ha (Or.inl h), fun h => ha (Or.inr h)⟩
    have hih := ih rest (fun c hc => hs c (by simp [hc])) hrest
    simp only [List.append_eq] at hih
    simp [parseUnquoted, ha', hih]

theorem sepStart_head (rest : List Char) (h : sepStart rest) : rest.head? ≠ some '"' := by
  rcases h with h | ⟨t, h⟩ | ⟨t, h⟩ <;> subst h <;> simp

theorem parseUnquoted_sep (rest : List Char) (h : sepStart rest) :
    parseUnquoted rest = ([], rest) := by
  rcases h with h | ⟨t, h⟩ | ⟨t, h⟩ <;> subst h <;> simp [parseUnquoted]

theorem needsQuote_false (s : List Char) (h : needsQuote s = false) :
    ∀ c ∈ s, c ≠ ',' ∧ c ≠ '"' ∧ c ≠ '\n' ∧ c ≠ '\r' := by
  intro c hc
  have := List.any_eq_false.mp h c hc
  simp only [Bool.or_eq_true, decide_eq_true_eq] at this
  push_neg at this
  obtain ⟨⟨⟨h1, h2⟩, h3⟩, h4⟩ := this
  exact ⟨h1, h2, h3, h4⟩

theorem parseField_not_quote (a : Char) (l : List Char) (ha : a ≠ '"') :
    parseField (a :: l) = parseUnquoted (a :: l) := by
  unfold parseField
  split
  · rename_i rest heq
    rw [List.cons.injEq] at heq
    exact absurd heq.1 ha
  · rfl

theorem parseField_quote (l : List Char) :
    parseField ('"' :: l) =
      ((parseQuoted l).1 ++ (parseUnquoted (parseQuoted l).2).1,
       (parseUnquoted (parseQuoted l).2).2) := rfl

theorem parseField_escaped (f rest : List Char) (h : sepStart rest) :
    parseField (escapeField f ++ rest) = (f, rest) := by
  by_cases hq : needsQuote f
  · have heq : escapeField f ++ rest = '"' :: ((f.map escapeChar).flatten ++ '"' :: rest) := by
      simp [escapeField, hq]
    rw [heq, parseField_quote, parseQuoted_escaped f rest (sepStart_head rest h),
      parseUnquoted_sep rest h]
    simp
  · have hf := needsQuote_false f (by simpa using hq)
    have hclean : ∀ c ∈ f, ¬(c = ',' ∨ c = '\n') := by
      intro c hc hor
      rcases hor with h1 | h1
      · exact (hf c hc).1 h1
      · exact ((hf c hc).2).2.1 h1
    have hesc : escapeField f = f := by simp [escapeField, hq]
    rw [hesc]
    cases hfc : f with
    | nil =>
      rcases h with h1 | ⟨t, h1⟩ | ⟨t, h1⟩ <;> subst h1 <;>
        simp [parseField, parseUnquoted]
    | cons a f' =>
      have ha : a ≠ '"' := ((hf a (by simp [hfc])).2).1
      rw [List.cons_append, parseField_not_quote a (f' ++ rest) ha, ← List.cons_append,
        parseUnquoted_clean (a :: f') rest (hfc ▸ hclean) h]

theorem parseQuoted_rest_le_aux : ∀ (n : Nat) (l : List Char), l.length ≤ n →
    (parseQuoted l).2.length ≤ l.length := by
  intro n
  induction n with
  | zero =>
    intro l h
    have : l = [] := List.length_eq_zero.mp (Nat.le_zero.mp h)
    subst this
    simp [parseQuoted]
  | succ n ih =>
    intro l h
    rcases l with _ | ⟨c, _ | ⟨d, rest⟩⟩
    · simp [parseQuoted]
    · by_cases hc : c = '"' <;> simp [parseQuoted, hc]
    · by_cases hc : c = '"'
      · subst hc
        by_cases hd : d = '"'
        · subst hd
          have hr := ih rest (by simp at h; omega)
          simp only [parseQuoted, if_pos rfl]
          simp at hr ⊢
          omega
        · simp [parseQuoted, hd]
      · have hr := ih (d :: rest) (by simp at h ⊢; omega)
        simp only [parseQuoted, if_neg hc]
        simp at hr ⊢
        omega

theorem parseQuoted_rest_le (l : List Char) : (parseQuoted l).2.length ≤ l.length :=
  parseQuoted_rest_le_aux l.length l (le_refl _)

theorem parseUnquoted_rest_le : ∀ l : List Char, (parseUnquoted l).2.length ≤ l.length := by
  intro l
  induction l with
  | nil => simp [parseUnquoted]
  | cons c rest ih =>
    by_cases hc : (decide (c = ',') || decide (c = '\n')) = true
    · simp [parseUnquoted, hc]
    · simp only [Bool.not_eq_true] at hc
      simp only [parseUnquoted, hc, Bool.false_eq_true, if_false]
      simp at ih ⊢
      omega

theorem parseField_rest_le (l : List Char) : (parseField l).2.length ≤ l.length := by
  cases l with
  | nil => simp [parseField, parseUnquoted]
  | cons c rest =>
    by_cases hc : c = '"'
    · subst hc
      rw [parseField_quote]
      have h1 := parseQuoted_rest_le rest
      have h2 := parseUnquoted_rest_le (parseQuoted rest).2
      simp at h1 h2 ⊢
      omega
    · rw [parseField_not_quote c rest hc]
      exact parseUnquoted_rest_le (c :: rest)

theorem parseRecordAux_step_end (fuel : Nat) (l : List Char) (h : (parseField l).2 = []) :
    parseRecordAux (fuel + 1) l = ([(parseField l).1], []) := by
  simp only [parseRecordAux]
  rw [h]

theorem parseRecordAux_step_comma (fuel : Nat) (l rest2 : List Char)
    (h : (parseField l).2 = ',' :: rest2) :
    parseRecordAux (fuel + 1) l =
      ((parseField l).1 :: (parseRecordAux fuel rest2).1, (parseRecordAux fuel rest2).2) := by
  simp only [parseRecordAux]
  rw [h]
  simp

theorem parseRecordAux_step_other (fuel : Nat) (l rest2 : List Char) (c : Char)
    (hc : c ≠ ',') (h : (parseField l).2 = c :: rest2) :
    parseRecordAux (fuel + 1) l = ([(parseField l).1], rest2) := by
  simp only [parseRecordAux]
  rw [h]
  simp [hc]

theorem parseRecordAux_congr : ∀ (f1 f2 : Nat) (l : List Char), l.length ≤ f1 → l.length ≤ f2 →
    parseRecordAux f1 l = parseRecordAux f2 l := by
  intro f1
  induction f1 with
  | zero =>
    intro f2 l h1 _
    have : l = [] := List.length_eq_zero.mp (Nat.le_zero.mp h1)
    subst this
    cases f2 with
    | zero => rfl
    | succ f2 => rfl
  | succ f1 ih =>
    intro f2 l h1 h2
    cases f2 with
    | zero =>
      have : l = [] := List.length_eq_zero.mp (Nat.le_zero.mp h2)
      subst this
      rfl
    | succ f2 =>
      cases hs : (parseField l).2 with
      | nil => rw [parseRecordAux_step_end f1 l hs, parseRecordAux_step_end f2 l hs]
      | cons c rest2 =>
        have hr : rest2.length ≤ l.length - 1 := by
          have := parseField_rest_le l
          rw [hs] at this
          simp at this
          omega
        by_cases hc : c = ','
        · subst hc
          rw [parseRecordAux_step_comma f1 l rest2 hs, parseRecordAux_step_comma f2 l rest2 hs,
            ih f2 rest2 (by omega) (by omega)]
        · rw [parseRecordAux_step_other f1 l rest2 c hc hs,
            parseRecordAux_step_other f2 l rest2 c hc hs]

theorem parseRecord_end (l : List Char) (h : (parseField l).2 = []) :
    parseRecord l = ([(parseField l).1], []) := by
  unfold parseRecord
  cases hn : l.length with
  | zero => simp [parseRecordAux, h]
  | succ n => rw [parseRecordAux_step_end n l h]

theorem parseRecord_comma (l rest2 : List Char) (h : (parseField l).2 = ',' :: rest2) :
    parseRecord l = ((parseField l).1 :: (parseRecord rest2).1, (parseRecord rest2).2) := by
  have hl : l ≠ [] := by
    intro he
    subst he
    simp [parseField, parseUnquoted] at h
  obtain ⟨n, hn⟩ : ∃ n, l.length = n + 1 := by
    cases hL : l.length with
    | zero => exact absurd (List.length_eq_zero.mp hL) hl
    | succ m => exact ⟨m, rfl⟩
  have hr : rest2.length ≤ n := by
    have := parseField_rest_le l
    rw [h] at this
    simp at this
    omega
  unfold parseRecord
  rw [hn, parseRecordAux_step_comma n l rest2 h,
    parseRecordAux_congr n rest2.length rest2 hr (le_refl _)]

theorem parseRecord_other (l rest2 : List Char) (c : Char) (hc : c ≠ ',')
    (h : (parseField l).2 = c :: rest2) :
    parseRecord l = ([(parseField l).1], rest2) := by
  have hl : l ≠ [] := by
    intro he
    subst he
    simp [parseField, parseUnquoted] at h
  obtain ⟨n, hn⟩ : ∃ n, l.length = n + 1 := by
    cases hL : l.length with
    | zero => exact absurd (List.length_eq_zero.mp hL) hl
    | succ m => exact ⟨m, rfl⟩
  unfold parseRecord
  rw [hn, parseRecordAux_step_other n l rest2 c hc h]

theorem parseRecordAux_rest_le : ∀ (fuel : Nat) (l : List Char),
    (parseRecordAux fuel l).2.length ≤ l.length := by
  intro fuel
  induction fuel with
  | zero =>
    intro l
    simpa [parseRecordAux] using parseField_rest_le l
  | succ fuel ih =>
    intro l
    cases hs : (parseField l).2 with
    | nil =>
      rw [parseRecordAux_step_end fuel l hs]
      simp
    | cons c rest2 =>
      have h2 := parseField_rest_le l
      rw [hs] at h2
      simp at h2
      by_cases hc : c = ','
      · subst hc
        rw [parseRecordAux_step_comma fuel l rest2 hs]
        have h1 := ih rest2
        simp
        omega
      · rw [parseRecordAux_step_other fuel l rest2 c hc hs]
        simp
        omega

theorem parseRecord_rest_lt (l : List Char) (hl : l ≠ []) :
    (parseRecord l).2.length < l.length := by
  have hpos : 0 < l.length := List.length_pos.mpr hl
  cases hs : (parseField l).2 with
  | nil =>
    rw [parseRecord_end l hs]
    simpa using hpos
  | cons c rest2 =>
    have h2 := parseField_rest_le l
    rw [hs] at h2
    simp at h2
    by_cases hc : c = ','
    · subst hc
      rw [parseRecord_comma l rest2 hs]
      have h1 := parseRecordAux_rest_le rest2.length rest2
      simp only [parseRecord]
      simp
      omega
    · rw [parseRecord_other l rest2 c hc hs]
      simp
      omega

theorem parseRecordsAux_congr : ∀ (f1 f2 : Nat) (l : List Char), l.length ≤ f1 → l.length ≤ f2 →
    parseRecordsAux f1 l = parseRecordsAux f2 l := by
  intro f1
  induction f1 with
  | zero =>
    intro f2 l h1 _
    have : l = [] := List.length_eq_zero.mp (Nat.le_zero.mp h1)
    subst this
    cases f2 <;> rfl
  | succ f1 ih =>
    intro f2 l h1 h2
    cases l with
    | nil => cases f2 <;> rfl
    | cons c rest =>
      cases f2 with
      | zero => simp at h2
      | succ f2 =>
        have hlt := parseRecord_rest_lt (c :: rest) (by simp)
        simp only [List.length_cons] at h1 h2 hlt
        simp only [parseRecordsAux]
        rw [ih f2 (parseRecord (c :: rest)).2 (by omega) (by omega)]

theorem parseRecords_cons (l : List Char) (hl : l ≠ []) :
    parseRecords l = (parseRecord l).1 :: parseRecords (parseRecord l).2 := by
  obtain ⟨c, rest, rfl⟩ := List.exists_cons_of_ne_nil hl
  have hlt := parseRecord_rest_lt (c :: rest) (by simp)
  simp only [List.length_cons] at hlt
  unfold parseRecords
  simp only [List.length_cons]
  simp only [parseRecordsAux]
  rw [parseRecordsAux_congr rest.length (parseRecord (c :: rest)).2.length
    (parseRecord (c :: rest)).2 (by omega) (le_refl _)]

theorem parseRecord_encoded : ∀ (fs : List (List Char)) (rest : List Char), fs ≠ [] →
    parseRecord (encodeRecord fs ++ '\n' :: rest) = (fs, rest) := by
  intro fs
  induction fs with
  | nil => intro rest h; exact absurd rfl h
  | cons f fs ih =>
    intro rest _
    cases fs with
    | nil =>
      have he : encodeRecord [f] = escapeField f := by
        simp [encodeRecord, joinSep]
      rw [he]
      have hpf := parseField_escaped f ('\n' :: rest) (Or.inr (Or.inr ⟨rest, rfl⟩))
      rw [parseRecord_other _ rest '\n' (by decide) (by rw [hpf]), hpf]
    | cons f2 fs2 =>
      have he : encodeRecord (f :: f2 :: fs2) =
          escapeField f ++ ',' :: encodeRecord (f2 :: fs2) := by
        simp only [encodeRecord, List.map_cons, joinSep]
        simp
      rw [he, List.append_assoc, List.cons_append]
      have hpf := parseField_escaped f (',' :: (encodeRecord (f2 :: fs2) ++ '\n' :: rest))
        (Or.inr (Or.inl ⟨_, rfl⟩))
      rw [parseRecord_comma _ _ (by rw [hpf]), hpf, ih rest (by simp)]

theorem parseRecords_line (fs : List (List Char)) (rest : List Char) (hfs : fs ≠ []) :
    parseRecords (encodeLine fs ++ rest) = fs :: parseRecords rest := by
  rw [show encodeLine fs ++ rest = encodeRecord fs ++ '\n' :: rest from by
    simp [encodeLine]]
  rw [parseRecords_cons _ (by simp), parseRecord_encoded fs rest hfs]

theorem parseRecords_taskLines (ts : List Task) :
    parseRecords ((ts.map (fun t => encodeLine (taskFields t))).flatten) = ts.map taskFields := by
  induction ts with
  | nil => rfl
  | cons t ts ih =>
    simp only [List.map_cons, List.flatten_cons]
    rw [parseRecords_line (taskFields t) _ (by simp [taskFields]), ih]

theorem recordsOf_encode_cons (t : Task) (ts : List Task) :
    recordsOf (encodeTasks (t :: ts)) = headerFields :: (t :: ts).map taskFields := by
  have he : encodeTasks (t :: ts) =
      encodeLine headerFields ++ ((t :: ts).map (fun u => encodeLine (taskFields u))).flatten := rfl
  rw [recordsOf, he, parseRecords_line headerFields _ (by simp [headerFields]),
    parseRecords_taskLines]
  rw [List.filter_eq_self.mpr]
  intro r hr
  simp only [List.mem_cons, List.mem_map] at hr
  rcases hr with h | ⟨u, _, h⟩
  · subst h; decide
  · subst h
    simp [taskFields]

theorem decodeTask_taskFields (t : Task) : decodeTask headerFields (taskFields t) = some t := by
  obtain ⟨i, ti, d, b⟩ := t
  cases b <;> rfl

theorem readTasksAux_encoded (ts : List Task) :
    readTasksAux headerFields (ts.map taskFields) = (ts, false) := by
  induction ts with
  | nil => rfl
  | cons t ts ih =>
    simp only [List.map_cons, readTasksAux, decodeTask_taskFields, ih]

theorem read_encode (ts : List Task) :
    read_tasks_from_csv (some (encodeTasks ts)) = (ts, none) := by
  cases ts with
  | nil => rfl
  | cons t ts =>
    have h1 : read_tasks_from_csv (some (encodeTasks (t :: ts))) =
        (match recordsOf (encodeTasks (t :: ts)) with
         | [] => (([] : List Task), (none : Option TaskError))
         | hdr :: rest =>
           ((readTasksAux hdr rest).1,
            if (readTasksAux hdr rest).2 = true then some TaskError.decode else none)) := rfl
    rw [h1, recordsOf_encode_cons t ts]
    simp only [readTasksAux_encoded (t :: ts)]
    simp

theorem add_task_ok (s : Tasks) (ts : List Task) (g : Nat → Fin 62) (a : AddArgs)
    (hs : s.file = some (encodeTasks ts)) :
    add_task s g a =
      (Tasks.mk (ts ++ [Task.mk (String.mk (generate_task_id g)) a.title a.description false])
        (some (encodeTasks
          (ts ++ [Task.mk (String.mk (generate_task_id g)) a.title a.description false]))),
       Except.ok ("The task was successfully added.")) := by
  unfold add_task
  rw [hs, read_encode]
  rfl

theorem add_task_none (s : Tasks) (g : Nat → Fin 62) (a : AddArgs) (hs : s.file = none) :
    add_task s g a =
      (Tasks.mk [Task.mk (String.mk (generate_task_id g)) a.title a.description false]
        (some (encodeTasks
          [Task.mk (String.mk (generate_task_id g)) a.title a.description false])),
       Except.ok ("The task was successfully added.")) := by
  unfold add_task
  rw [hs]
  rfl

theorem editLoop_nomatch (e : EditArgs) : ∀ ts : List Task,
    (∀ t ∈ ts, t.id ≠ e.id) → editLoop e ts = (ts, false) := by
  intro ts
  induction ts with
  | nil => intro _; rfl
  | cons t ts ih =>
    intro h
    have ht : t.id ≠ e.id := h t (by simp)
    simp [editLoop, ht, ih (fun u hu => h u (by simp [hu]))]

theorem editLoop_match (e : EditArgs) : ∀ (pre post : List Task) (t : Task),
    (∀ u ∈ pre, u.id ≠ e.id) → t.id = e.id →
    editLoop e (pre ++ t :: post) = (pre ++ applyEdit e t :: post, true) := by
  intro pre
  induction pre with
  | nil =>
    intro post t _ ht
    simp [editLoop, ht]
  | cons u pre ih =>
    intro post t h ht
    have hu : u.id ≠ e.id := h u (by simp)
    simp [editLoop, hu, ih post t (fun v hv => h v (by simp [hv])) ht]

theorem edit_task_ok (s : Tasks) (pre post : List Task) (t : Task) (e : EditArgs)
    (hs : s.file = some (encodeTasks (pre ++ t :: post)))
    (hpre : ∀ u ∈ pre, u.id ≠ e.id) (ht : t.id = e.id) :
    edit_task s e =
      (Tasks.mk (pre ++ applyEdit e t :: post)
        (some (encodeTasks (pre ++ applyEdit e t :: post))),
       Except.ok ("The task was successfully edited.")) := by
  unfold edit_task
  rw [hs, read_encode]
  simp only [editLoop_match e pre post t hpre ht]
  rfl

theorem edit_task_err (s : Tasks) (ts : List Task) (e : EditArgs)
    (hs : s.file = some (encodeTasks ts)) (h : ∀ t ∈ ts, t.id ≠ e.id) :
    edit_task s e = (Tasks.mk ts (some (encodeTasks ts)), Except.error TaskError.notFound) := by
  unfold edit_task
  rw [hs, read_encode]
  simp only [editLoop_nomatch e ts h]
  rfl

theorem filter_ne_of_all (i : String) (ts : List Task) (h : ∀ t ∈ ts, t.id ≠ i) :
    ts.filter (fun t => t.id != i) = ts := by
  rw [List.filter_eq_self]
  intro t ht
  simp [bne_iff_ne, h t ht]

theorem length_filter_lt (i : String) (ts : List Task) (t : Task) (ht : t ∈ ts)
    (hid : t.id = i) : (ts.filter (fun u => u.id != i)).length < ts.length := by
  induction ts with
  | nil => cases ht
  | cons u ts ih =>
    rcases List.mem_cons.mp ht with h1 | h1
    · subst h1
      have hfalse : (t.id != i) = false := by simp [hid]
      simp only [List.filter_cons, hfalse, Bool.false_eq_true, if_false]
      have := List.length_filter_le (fun u => u.id != i) ts
      simp only [List.length_cons]
      omega
    · by_cases hu : (u.id != i) = true
      · simp only [List.filter_cons, hu, if_true]
        simp only [List.length_cons]
        exact Nat.succ_lt_succ (ih h1)
      · simp only [Bool.not_eq_true] at hu
        simp only [List.filter_cons, hu, Bool.false_eq_true, if_false]
        have := List.length_filter_le (fun u => u.id != i) ts
        have h2 := ih h1
        simp only [List.length_cons]
        omega

theorem remove_task_err (s : Tasks) (ts : List Task) (r : RemoveArgs)
    (hs : s.file = some (encodeTasks ts)) (h : ∀ t ∈ ts, t.id ≠ r.id) :
    remove_task s r = (Tasks.mk ts (some (encodeTasks ts)), Except.error TaskError.notFound) := by
  unfold remove_task
  rw [hs, read_encode]
  simp only [filter_ne_of_all r.id ts h]
  simp

theorem remove_task_ok (s : Tasks) (ts : List Task) (r : RemoveArgs) (t : Task)
    (hs : s.file = some (encodeTasks ts)) (ht : t ∈ ts) (hid : t.id = r.id) :
    remove_task s r =
      (Tasks.mk (ts.filter (fun u => u.id != r.id))
        (some (encodeTasks (ts.filter (fun u => u.id != r.id)))),
       Except.ok ("The task was successfully removed.")) := by
  unfold remove_task
  rw [hs, read_encode]
  have hlt := length_filter_lt r.id ts t ht hid
  have hne : ¬ ((ts.filter (fun u => u.id != r.id)).length = ts.length) := by omega
  simp only [hne, if_false]
  rfl

theorem list_task_encode (s : Tasks) (ts : List Task) (hs : s.file = some (encodeTasks ts)) :
    list_task s = (Tasks.mk ts (some (encodeTasks ts)), Except.ok ts) := by
  unfold list_task
  rw [hs, read_encode]

theorem ops_read_error (s : Tasks) (ts : List Task) (er : TaskError)
    (hs : read_tasks_from_csv s.file = (ts, some er)) (g : Nat → Fin 62) (a : AddArgs)
    (e : EditArgs) (r : RemoveArgs) :
    add_task s g a = (Tasks.mk ts s.file, Except.error er) ∧
    edit_task s e = (Tasks.mk ts s.file, Except.error er) ∧
    remove_task s r = (Tasks.mk ts s.file, Except.error er) ∧
    list_task s = (Tasks.mk ts s.file, Except.error er) := by
  unfold add_task edit_task remove_task list_task
  rw [hs]
  exact ⟨rfl, rfl, rfl, rfl⟩

theorem readTasksAux_err (hdr : List (List Char)) : ∀ rs : List (List (List Char)),
    (readTasksAux hdr rs).2 = true ↔ ∃ r ∈ rs, decodeTask hdr r = none := by
  intro rs
  induction rs with
  | nil => simp [readTasksAux]
  | cons r rs ih =>
    cases hd : decodeTask hdr r with
    | none => simp [readTasksAux, hd]
    | some t => simp [readTasksAux, hd, ih]

theorem read_some_decode (l : List Char) (hdr : List (List Char))
    (rs : List (List (List Char))) (h : recordsOf l = hdr :: rs) (r : List (List Char))
    (hr : r ∈ rs) (hbad : decodeTask hdr r = none) :
    read_tasks_from_csv (some l) = ((readTasksAux hdr rs).1, some TaskError.decode) := by
  have herr : (readTasksAux hdr rs).2 = true := (readTasksAux_err hdr rs).mpr ⟨r, hr, hbad⟩
  have h1 : read_tasks_from_csv (some l) =
      (match recordsOf l with
       | [] => (([] : List Task), (none : Option TaskError))
       | hdr :: rest =>
         ((readTasksAux hdr rest).1,
          if (readTasksAux hdr rest).2 = true then some TaskError.decode else none)) := rfl
  rw [h1, h]
  simp [herr]

theorem generate_task_id_length (g : Nat → Fin 62) : (generate_task_id g).length = 8 := by
  simp [generate_task_id]

theorem generate_task_id_mem (g : Nat → Fin 62) :
    ∀ c ∈ generate_task_id g, c ∈ alphanumericChars := by
  intro c hc
  simp only [generate_task_id, List.mem_map] at hc
  obtain ⟨i, _, rfl⟩ := hc
  have hlt : (g i).val < alphanumericChars.length := (g i).isLt
  rw [List.getD_eq_getElem alphanumericChars 'A' hlt]
  exact List.getElem_mem hlt

theorem alphanumericChars_class :
    ∀ c ∈ alphanumericChars, (c.isUpper || c.isLower || c.isDigit) = true := by decide

theorem generate_task_id_class (g : Nat → Fin 62) :
    (generate_task_id g).all (fun c => c.isUpper || c.isLower || c.isDigit) = true := by
  rw [List.all_eq_true]
  intro c hc
  exact alphanumericChars_class c (generate_task_id_mem g c hc)

theorem length_filter_nodup (i : String) : ∀ ts : List Task, (ts.map Task.id).Nodup →
    (∃ t ∈ ts, t.id = i) → (ts.filter (fun t => t.id != i)).length + 1 = ts.length := by
  intro ts
  induction ts with
  | nil =>
    intro _ h
    simp at h
  | cons u ts ih =>
    intro hnd hex
    simp only [List.map_cons, List.nodup_cons] at hnd
    by_cases hu : u.id = i
    · have hrest : ∀ t ∈ ts, t.id ≠ i := by
        intro t htm he
        apply hnd.1
        rw [hu, ← he]
        exact List.mem_map_of_mem Task.id htm
      have hfalse : (u.id != i) = false := by simp [hu]
      rw [List.filter_cons, hfalse]
      simp only [Bool.false_eq_true, if_false]
      rw [filter_ne_of_all i ts hrest]
      simp
    · obtain ⟨t, htm, hti⟩ := hex
      rcases List.mem_cons.mp htm with h1 | h1
      · subst h1
        exact absurd hti hu
      · have hrec := ih hnd.2 ⟨t, h1, hti⟩
        have htrue : (u.id != i) = true := by simp [hu]
        rw [List.filter_cons, htrue]
        simp only [if_true, List.length_cons]
        omega

theorem addMany_encode : ∀ (l : List ((Nat → Fin 62) × String × String)) (ts ms : List Task),
    l ≠ [] → addMany l (Tasks.mk ms (some (encodeTasks ts))) =
      Tasks.mk (ts ++ newTasks l) (some (encodeTasks (ts ++ newTasks l))) := by
  intro l
  induction l with
  | nil =>
    intro ts ms h
    exact absurd rfl h
  | cons p l ih =>
    intro ts ms _
    obtain ⟨g, t, d⟩ := p
    have hstep := add_task_ok (Tasks.mk ms (some (encodeTasks ts))) ts g (AddArgs.mk t d) rfl
    have hsimp : (add_task (Tasks.mk ms (some (encodeTasks ts))) g (AddArgs.mk t d)).1 =
        Tasks.mk (ts ++ [Task.mk (String.mk (generate_task_id g)) t d false])
          (some (encodeTasks (ts ++ [Task.mk (String.mk (generate_task_id g)) t d false]))) := by
      rw [hstep]
    show addMany l ((add_task (Tasks.mk ms (some (encodeTasks ts))) g (AddArgs.mk t d)).1) = _
    rw [hsimp]
    cases l with
    | nil =>
      show Tasks.mk _ _ = _
      simp [newTasks]
    | cons q l2 =>
      rw [ih (ts ++ [Task.mk (String.mk (generate_task_id g)) t d false])
        (ts ++ [Task.mk (String.mk (generate_task_id g)) t d false]) (by simp)]
      simp [newTasks, List.append_assoc]

theorem newTasks_ids (l : List ((Nat → Fin 62) × String × String)) :
    (newTasks l).map Task.id = l.map (fun p => String.mk (generate_task_id p.1)) := by
  simp [newTasks, List.map_map]

theorem newTasks_length (l : List ((Nat → Fin 62) × String × String)) :
    (newTasks l).length = l.length := by
  simp [newTasks]

/-- C1: writing any collection of tasks to the backing file and reading it
back yields the same collection (same ids, titles, descriptions, done flags,
same order) with no error, for any number of tasks including ones whose
fields contain embedded delimiter characters. -/
theorem roundtrip_write_read (ts : List Task) (f0 : Option (List Char)) :
    read_tasks_from_csv ((write_tasks_to_csv (Tasks.mk ts f0)).file) = (ts, none) := by
  rw [show (write_tasks_to_csv (Tasks.mk ts f0)).file = some (encodeTasks ts) from rfl,
    read_encode]

/-- C2: on a persisted collection holding no task with the requested id, both
`edit_task` and `remove_task` fail with the not-found error and leave the
backing file's content unchanged (no write happens on the error path). -/
theorem not_found_leaves_file (ts ms : List Task) (e : EditArgs) (r : RemoveArgs)
    (he : ∀ t ∈ ts, t.id ≠ e.id) (hr : ∀ t ∈ ts, t.id ≠ r.id) :
    edit_task (Tasks.mk ms (some (encodeTasks ts))) e =
      (Tasks.mk ts (some (encodeTasks ts)), Except.error TaskError.notFound) ∧
    remove_task (Tasks.mk ms (some (encodeTasks ts))) r =
      (Tasks.mk ts (some (encodeTasks ts)), Except.error TaskError.notFound) :=
  ⟨edit_task_err (Tasks.mk ms (some (encodeTasks ts))) ts e rfl he,
   remove_task_err (Tasks.mk ms (some (encodeTasks ts))) ts r rfl hr⟩

/-- C2 witness: a store holding one task; editing and removing a task by an
id that matches nothing fails with the not-found error and the file content
is unchanged. -/
theorem not_found_leaves_file_witness :
    (∀ t ∈ [Task.mk ("aB3xY9Zq") ("write spec") ("for todo_cli") false],
      t.id ≠ (EditArgs.mk ("nonexistent-id") (some ("new title")) none none).id) ∧
    edit_task (Tasks.mk [] (some (encodeTasks
        [Task.mk ("aB3xY9Zq") ("write spec") ("for todo_cli") false])))
        (EditArgs.mk ("nonexistent-id") (some ("new title")) none none) =
      (Tasks.mk [Task.mk ("aB3xY9Zq") ("write spec") ("for todo_cli") false]
        (some (encodeTasks [Task.mk ("aB3xY9Zq") ("write spec") ("for todo_cli") false])),
       Except.error TaskError.notFound) ∧
    remove_task (Tasks.mk [] (some (encodeTasks
        [Task.mk ("aB3xY9Zq") ("write spec") ("for todo_cli") false])))
        (RemoveArgs.mk ("nonexistent-id")) =
      (Tasks.mk [Task.mk ("aB3xY9Zq") ("write spec") ("for todo_cli") false]
        (some (encodeTasks [Task.mk ("aB3xY9Zq") ("write spec") ("for todo_cli") false])),
       Except.error TaskError.notFound) :=
  ⟨by decide,
   (not_found_leaves_file [Task.mk ("aB3xY9Zq") ("write spec") ("for todo_cli") false] []
     (EditArgs.mk ("nonexistent-id") (some ("new title")) none none)
     (RemoveArgs.mk ("nonexistent-id")) (by decide) (by decide)).1,
   (not_found_leaves_file [Task.mk ("aB3xY9Zq") ("write spec") ("for todo_cli") false] []
     (EditArgs.mk ("nonexistent-id") (some ("new title")) none none)
     (RemoveArgs.mk ("nonexistent-id")) (by decide) (by decide)).2⟩

/-- C3: on a persisted store of tasks with pairwise-distinct ids, removing an
id that is present succeeds, yields exactly one task fewer with the removed
id absent, and removing the same id again fails with the not-found error,
leaving the file unchanged. -/
theorem remove_shrinks_by_one (ts ms : List Task) (i : String)
    (hnd : (ts.map Task.id).Nodup) (hmem : ∃ t ∈ ts, t.id = i) :
    remove_task (Tasks.mk ms (some (encodeTasks ts))) (RemoveArgs.mk i) =
      (Tasks.mk (ts.filter (fun t => t.id != i))
        (some (encodeTasks (ts.filter (fun t => t.id != i)))),
       Except.ok ("The task was successfully removed.")) ∧
    (ts.filter (fun t => t.id != i)).length + 1 = ts.length ∧
    (∀ t ∈ ts.filter (fun t => t.id != i), t.id ≠ i) ∧
    remove_task (Tasks.mk (ts.filter (fun t => t.id != i))
        (some (encodeTasks (ts.filter (fun t => t.id != i))))) (RemoveArgs.mk i) =
      (Tasks.mk (ts.filter (fun t => t.id != i))
        (some (encodeTasks (ts.filter (fun t => t.id != i)))),
       Except.error TaskError.notFound) := by
  obtain ⟨t, htm, hti⟩ := hmem
  have habsent : ∀ u ∈ ts.filter (fun t => t.id != i), u.id ≠ i := by
    intro u hu
    have := (List.mem_filter.mp hu).2
    simpa [bne_iff_ne] using this
  refine ⟨remove_task_ok _ ts (RemoveArgs.mk i) t rfl htm hti,
    length_filter_nodup i ts hnd ⟨t, htm, hti⟩, habsent, ?_⟩
  exact remove_task_err _ (ts.filter (fun t => t.id != i)) (RemoveArgs.mk i) rfl habsent

/-- C3 witness: removing an existing id from a two-task store with distinct
ids succeeds leaving one task, and removing it again fails. -/
theorem remove_shrinks_by_one_witness :
    (([Task.mk ("id1aaaaa") ("t1") ("d1") false,
       Task.mk ("id2bbbbb") ("t2") ("d2") true].map Task.id).Nodup ∧
     ∃ t ∈ [Task.mk ("id1aaaaa") ("t1") ("d1") false,
       Task.mk ("id2bbbbb") ("t2") ("d2") true], t.id = ("id1aaaaa")) ∧
    remove_task (Tasks.mk [] (some (encodeTasks
        [Task.mk ("id1aaaaa") ("t1") ("d1") false,
         Task.mk ("id2bbbbb") ("t2") ("d2") true]))) (RemoveArgs.mk ("id1aaaaa")) =
      (Tasks.mk ([Task.mk ("id1aaaaa") ("t1") ("d1") false,
          Task.mk ("id2bbbbb") ("t2") ("d2") true].filter (fun t => t.id != ("id1aaaaa")))
        (some (encodeTasks ([Task.mk ("id1aaaaa") ("t1") ("d1") false,
          Task.mk ("id2bbbbb") ("t2") ("d2") true].filter (fun t => t.id != ("id1aaaaa"))))),
       Except.ok ("The task was successfully removed.")) ∧
    ([Task.mk ("id1aaaaa") ("t1") ("d1") false,
      Task.mk ("id2bbbbb") ("t2") ("d2") true].filter
        (fun t => t.id != ("id1aaaaa"))).length + 1 = 2 :=
  ⟨⟨by decide, by decide⟩,
   (remove_shrinks_by_one [Task.mk ("id1aaaaa") ("t1") ("d1") false,
      Task.mk ("id2bbbbb") ("t2") ("d2") true] [] ("id1aaaaa")
      (by decide) (by decide)).1,
   (remove_shrinks_by_one [Task.mk ("id1aaaaa") ("t1") ("d1") false,
      Task.mk ("id2bbbbb") ("t2") ("d2") true] [] ("id1aaaaa")
      (by decide) (by decide)).2.1⟩

/-- C4: an edit supplying no optional field leaves a task identical; an edit
supplying exactly one optional field overwrites only that field; and on a
persisted collection, editing the first task whose id matches rewrites only
that task, with every task before and after it returned unchanged. -/
theorem edit_partial_frame (e : EditArgs) (ms pre post : List Task) (t : Task)
    (i v : String) (b : Bool)
    (hpre : ∀ u ∈ pre, u.id ≠ e.id) (ht : t.id = e.id) :
    applyEdit (EditArgs.mk i none none none) t = t ∧
    applyEdit (EditArgs.mk i (some v) none none) t = { t with title := v } ∧
    applyEdit (EditArgs.mk i none (some v) none) t = { t with description := v } ∧
    applyEdit (EditArgs.mk i none none (some b)) t = { t with is_done := b } ∧
    edit_task (Tasks.mk ms (some (encodeTasks (pre ++ t :: post)))) e =
      (Tasks.mk (pre ++ applyEdit e t :: post)
        (some (encodeTasks (pre ++ applyEdit e t :: post))),
       Except.ok ("The task was successfully edited.")) := by
  refine ⟨rfl, rfl, rfl, rfl, ?_⟩
  exact edit_task_ok _ pre post t e rfl hpre ht

/-- C4 witness: editing only the title of the middle task of three rewrites
exactly that task's title, keeping its other fields and both neighbours
untouched. -/
theorem edit_partial_frame_witness :
    ((∀ u ∈ [Task.mk ("ppppppp1") ("a") ("b") false],
        u.id ≠ (EditArgs.mk ("xxxxxxx2") (some ("new")) none none).id) ∧
      (Task.mk ("xxxxxxx2") ("c") ("d") true).id =
        (EditArgs.mk ("xxxxxxx2") (some ("new")) none none).id) ∧
    applyEdit (EditArgs.mk ("z") none none none) (Task.mk ("xxxxxxx2") ("c") ("d") true) =
      Task.mk ("xxxxxxx2") ("c") ("d") true ∧
    edit_task (Tasks.mk [] (some (encodeTasks
        [Task.mk ("ppppppp1") ("a") ("b") false,
         Task.mk ("xxxxxxx2") ("c") ("d") true,
         Task.mk ("qqqqqqq3") ("e") ("f") false])))
        (EditArgs.mk ("xxxxxxx2") (some ("new")) none none) =
      (Tasks.mk ([Task.mk ("ppppppp1") ("a") ("b") false] ++
          applyEdit (EditArgs.mk ("xxxxxxx2") (some ("new")) none none)
            (Task.mk ("xxxxxxx2") ("c") ("d") true) :: [Task.mk ("qqqqqqq3") ("e") ("f") false])
        (some (encodeTasks ([Task.mk ("ppppppp1") ("a") ("b") false] ++
          applyEdit (EditArgs.mk ("xxxxxxx2") (some ("new")) none none)
            (Task.mk ("xxxxxxx2") ("c") ("d") true) :: [Task.mk ("qqqqqqq3") ("e") ("f") false]))),
       Except.ok ("The task was successfully edited.")) :=
  ⟨⟨by decide, by decide⟩,
   (edit_partial_frame (EditArgs.mk ("xxxxxxx2") (some ("new")) none none) []
      [Task.mk ("ppppppp1") ("a") ("b") false] [Task.mk ("qqqqqqq3") ("e") ("f") false]
      (Task.mk ("xxxxxxx2") ("c") ("d") true) ("z") ("w") true
      (by decide) (by decide)).1,
   (edit_partial_frame (EditArgs.mk ("xxxxxxx2") (some ("new")) none none) []
      [Task.mk ("ppppppp1") ("a") ("b") false] [Task.mk ("qqqqqqq3") ("e") ("f") false]
      (Task.mk ("xxxxxxx2") ("c") ("d") true) ("z") ("w") true
      (by decide) (by decide)).2.2.2.2⟩

/-- C5: on any persisted collection, `add_task` appends exactly one new task
at the end whose done flag is false and whose id is the freshly generated
8-character alphanumeric string, leaves every previously loaded task
unchanged, and persists the full collection. -/
theorem add_appends_fresh_task (ts ms : List Task) (g : Nat → Fin 62) (a : AddArgs) :
    add_task (Tasks.mk ms (some (encodeTasks ts))) g a =
      (Tasks.mk (ts ++ [Task.mk (String.mk (generate_task_id g)) a.title a.description false])
        (some (encodeTasks
          (ts ++ [Task.mk (String.mk (generate_task_id g)) a.title a.description false]))),
       Except.ok ("The task was successfully added.")) ∧
    (generate_task_id g).length = 8 ∧
    (generate_task_id g).all (fun c => c.isUpper || c.isLower || c.isDigit) = true :=
  ⟨add_task_ok (Tasks.mk ms (some (encodeTasks ts))) ts g a rfl,
   generate_task_id_length g, generate_task_id_class g⟩

/-- C6 (amended): adding K tasks sequentially to an empty store yields K
tasks whose ids are exactly the K generated strings; the ids are pairwise
distinct whenever the realized draws of the pseudorandom source are pairwise
distinct, but no uniqueness check is performed, so a colliding realization
yields duplicate ids (see the counterexample). -/
theorem add_many_distinct_ids (l : List ((Nat → Fin 62) × String × String))
    (h : (l.map (fun p => generate_task_id p.1)).Nodup) :
    (addMany l (Tasks.mk [] none)).tasks.length = l.length ∧
    (addMany l (Tasks.mk [] none)).tasks.map Task.id =
      l.map (fun p => String.mk (generate_task_id p.1)) ∧
    ((addMany l (Tasks.mk [] none)).tasks.map Task.id).Nodup := by
  have htasks : (addMany l (Tasks.mk [] none)).tasks = newTasks l := by
    cases l with
    | nil => rfl
    | cons p rest =>
      obtain ⟨g, t, d⟩ := p
      have h0 : (add_task (Tasks.mk [] none) g (AddArgs.mk t d)).1 =
          Tasks.mk [Task.mk (String.mk (generate_task_id g)) t d false]
            (some (encodeTasks [Task.mk (String.mk (generate_task_id g)) t d false])) := by
        rw [add_task_none (Tasks.mk [] none) g (AddArgs.mk t d) rfl]
      show (addMany rest ((add_task (Tasks.mk [] none) g (AddArgs.mk t d)).1)).tasks = _
      rw [h0]
      cases rest with
      | nil => simp [addMany, newTasks]
      | cons q l2 =>
        rw [addMany_encode (q :: l2) [Task.mk (String.mk (generate_task_id g)) t d false]
          [Task.mk (String.mk (generate_task_id g)) t d false] (by simp)]
        simp [newTasks]
  refine ⟨?_, ?_, ?_⟩
  · rw [htasks, newTasks_length]
  · rw [htasks, newTasks_ids]
  · rw [htasks, newTasks_ids]
    have hinj : Function.Injective String.mk := fun x y hxy => by injection hxy
    have hmap := h.map hinj
    rw [List.map_map] at hmap
    exact hmap

/-- C6 counterexample: under a realization of the pseudorandom source in
which both draws coincide, two adds to an empty store yield two tasks with
the same id, so the ids are not pairwise distinct for every realization. -/
theorem add_many_collision :
    (addMany [((fun _ => (0 : Fin 62)), ("a"), ("b")),
        ((fun _ => (0 : Fin 62)), ("c"), ("d"))] (Tasks.mk [] none)).tasks.length = 2 ∧
    ¬ ((addMany [((fun _ => (0 : Fin 62)), ("a"), ("b")),
        ((fun _ => (0 : Fin 62)), ("c"), ("d"))] (Tasks.mk [] none)).tasks.map Task.id).Nodup := by
  constructor
  · decide
  · decide

/-- C6 witness: two adds whose realized draws differ produce two tasks with
pairwise-distinct ids. -/
theorem add_many_distinct_ids_witness :
    (([((fun _ => (0 : Fin 62)), ("a"), ("b")),
       ((fun _ => (1 : Fin 62)), ("c"), ("d"))].map
        (fun p => generate_task_id p.1)).Nodup) ∧
    (addMany [((fun _ => (0 : Fin 62)), ("a"), ("b")),
        ((fun _ => (1 : Fin 62)), ("c"), ("d"))] (Tasks.mk [] none)).tasks.length = 2 ∧
    ((addMany [((fun _ => (0 : Fin 62)), ("a"), ("b")),
        ((fun _ => (1 : Fin 62)), ("c"), ("d"))] (Tasks.mk [] none)).tasks.map Task.id).Nodup :=
  ⟨by decide,
   (add_many_distinct_ids [((fun _ => (0 : Fin 62)), ("a"), ("b")),
      ((fun _ => (1 : Fin 62)), ("c"), ("d"))] (by decide)).1,
   (add_many_distinct_ids [((fun _ => (0 : Fin 62)), ("a"), ("b")),
      ((fun _ => (1 : Fin 62)), ("c"), ("d"))] (by decide)).2.2⟩

/-- C7: against a path holding no file, listing succeeds with an empty
collection (not an error) and adding succeeds, creating the file so that it
afterwards contains exactly one task. -/
theorem bootstrap_no_file (ms : List Task) (g : Nat → Fin 62) (a : AddArgs) :
    list_task (Tasks.mk ms none) = (Tasks.mk [] none, Except.ok ([])) ∧
    add_task (Tasks.mk ms none) g a =
      (Tasks.mk [Task.mk (String.mk (generate_task_id g)) a.title a.description false]
        (some (encodeTasks
          [Task.mk (String.mk (generate_task_id g)) a.title a.description false])),
       Except.ok ("The task was successfully added.")) ∧
    (add_task (Tasks.mk ms none) g a).1.file ≠ none ∧
    read_tasks_from_csv (add_task (Tasks.mk ms none) g a).1.file =
      ([Task.mk (String.mk (generate_task_id g)) a.title a.description false], none) := by
  have hadd := add_task_none (Tasks.mk ms none) g a rfl
  refine ⟨rfl, hadd, ?_, ?_⟩
  · rw [hadd]
    simp
  · rw [hadd]
    exact read_encode _

/-- C8 (amended): for a nonempty collection the write path replaces the
file's entire prior content with the fixed header row followed by one record
line per task in in-memory order; for the empty collection the file is
truncated to empty content with no header row (the csv writer emits the
header only on the first record). -/
theorem write_contract (ts : List Task) (f0 : Option (List Char)) (h : ts ≠ []) :
    (write_tasks_to_csv (Tasks.mk ts f0)).file =
      some (headerLine ++ (ts.map (fun t => encodeLine (taskFields t))).flatten) ∧
    (write_tasks_to_csv (Tasks.mk [] f0)).file = some ([]) := by
  constructor
  · cases ts with
    | nil => exact absurd rfl h
    | cons t ts2 => rfl
  · rfl

/-- C8 witness: writing a one-task collection yields the header line followed
by that task's record line, independent of the prior content. -/
theorem write_contract_witness :
    ([Task.mk ("a") ("b") ("c") false] ≠ []) ∧
    (write_tasks_to_csv (Tasks.mk [Task.mk ("a") ("b") ("c") false]
        (some (['o', 'l', 'd'])))).file =
      some (headerLine ++ ([Task.mk ("a") ("b") ("c") false].map
        (fun t => encodeLine (taskFields t))).flatten) :=
  ⟨by decide,
   (write_contract [Task.mk ("a") ("b") ("c") false] (some (['o', 'l', 'd']))
     (by decide)).1⟩

/-- C8 counterexample: the claim's header contract fails on the empty
collection: the write path truncates the file to empty content, which is not
the header row followed by zero records. -/
theorem write_empty_no_header :
    (write_tasks_to_csv (Tasks.mk [] none)).file = some ([]) ∧
    (write_tasks_to_csv (Tasks.mk [] none)).file ≠
      some (headerLine ++ (([] : List Task).map (fun t => encodeLine (taskFields t))).flatten) :=
  ⟨rfl, by decide⟩

/-- C9 (amended): on file content in which some record after the header is
malformed (wrong field count or unparsable done column), the read path fails
with the decode error and every operation aborts, propagating the error and
leaving the file's content unchanged; the in-memory vector transiently holds
the prefix of records decoded before the failure, but no operation observes
or persists it. -/
theorem decode_error_aborts (l : List Char) (hdr r : List (List Char))
    (rs : List (List (List Char))) (h : recordsOf l = hdr :: rs) (hr : r ∈ rs)
    (hbad : decodeTask hdr r = none) (s : Tasks) (hs : s.file = some l)
    (g : Nat → Fin 62) (a : AddArgs) (e : EditArgs) (rm : RemoveArgs) :
    read_tasks_from_csv (some l) = ((readTasksAux hdr rs).1, some TaskError.decode) ∧
    add_task s g a = (Tasks.mk (readTasksAux hdr rs).1 (some l), Except.error TaskError.decode) ∧
    edit_task s e = (Tasks.mk (readTasksAux hdr rs).1 (some l), Except.error TaskError.decode) ∧
    remove_task s rm =
      (Tasks.mk (readTasksAux hdr rs).1 (some l), Except.error TaskError.decode) ∧
    list_task s = (Tasks.mk (readTasksAux hdr rs).1 (some l), Except.error TaskError.decode) := by
  have hread := read_some_decode l hdr rs h r hr hbad
  have hops := ops_read_error s (readTasksAux hdr rs).1 TaskError.decode
    (by rw [hs, hread]) g a e rm
  rw [hs] at hops
  exact ⟨hread, hops.1, hops.2.1, hops.2.2.1, hops.2.2.2⟩

/-- C9 counterexample: on a file holding one well-formed record followed by a
record whose done column is unparsable, the read fails with the decode error
but the successfully parsed prefix is retained in the task vector, refuting
the claim that no prefix is retained. -/
theorem decode_error_retained :
    (read_tasks_from_csv (some (encodeTasks [Task.mk ("a") ("b") ("c") true] ++
      ['x', ',', 'y', ',', 'z', ',', 'm', '\n']))).2 = some TaskError.decode ∧
    (read_tasks_from_csv (some (encodeTasks [Task.mk ("a") ("b") ("c") true] ++
      ['x', ',', 'y', ',', 'z', ',', 'm', '\n']))).1 = [Task.mk ("a") ("b") ("c") true] := by
  constructor
  · decide
  · decide

/-- C9 witness: a file whose single data row has an unparsable done column
makes the read fail with the decode error, and every operation on a store
backed by it propagates the error without writing. -/
theorem decode_error_aborts_witness :
    (recordsOf (headerLine ++ ['x', ',', 'y', ',', 'z', ',', 'm', '\n']) =
      headerFields :: [[['x'], ['y'], ['z'], ['m']]] ∧
     [['x'], ['y'], ['z'], ['m']] ∈ [[['x'], ['y'], ['z'], ['m']]] ∧
     decodeTask headerFields [['x'], ['y'], ['z'], ['m']] = none) ∧
    read_tasks_from_csv (some (headerLine ++ ['x', ',', 'y', ',', 'z', ',', 'm', '\n'])) =
      ((readTasksAux headerFields [[['x'], ['y'], ['z'], ['m']]]).1, some TaskError.decode) ∧
    list_task (Tasks.mk [] (some (headerLine ++ ['x', ',', 'y', ',', 'z', ',', 'm', '\n']))) =
      (Tasks.mk (readTasksAux headerFields [[['x'], ['y'], ['z'], ['m']]]).1
        (some (headerLine ++ ['x', ',', 'y', ',', 'z', ',', 'm', '\n'])),
       Except.error TaskError.decode) :=
  ⟨⟨by decide, by decide, by decide⟩,
   (decode_error_aborts (headerLine ++ ['x', ',', 'y', ',', 'z', ',', 'm', '\n'])
      headerFields [['x'], ['y'], ['z'], ['m']] [[['x'], ['y'], ['z'], ['m']]]
      (by decide) (by decide) (by decide)
      (Tasks.mk [] (some (headerLine ++ ['x', ',', 'y', ',', 'z', ',', 'm', '\n']))) rfl
      (fun _ => (0 : Fin 62)) (AddArgs.mk ("t") ("d"))
      (EditArgs.mk ("i") none none none) (RemoveArgs.mk ("i"))).1,
   (decode_error_aborts (headerLine ++ ['x', ',', 'y', ',', 'z', ',', 'm', '\n'])
      headerFields [['x'], ['y'], ['z'], ['m']] [[['x'], ['y'], ['z'], ['m']]]
      (by decide) (by decide) (by decide)
      (Tasks.mk [] (some (headerLine ++ ['x', ',', 'y', ',', 'z', ',', 'm', '\n']))) rfl
      (fun _ => (0 : Fin 62)) (AddArgs.mk ("t") ("d"))
      (EditArgs.mk ("i") none none none) (RemoveArgs.mk ("i"))).2.2.2.2⟩

/-- C10: `remove_task` deletes every task whose id equals the given id, not
exactly one: when several tasks share the id, all of them are removed in the
one call, the operation still reports success, and the resulting collection
contains no task with that id. -/
theorem remove_deletes_all_matches (ts ms : List Task) (r : RemoveArgs) (t : Task)
    (ht : t ∈ ts) (hid : t.id = r.id) :
    remove_task (Tasks.mk ms (some (encodeTasks ts))) r =
      (Tasks.mk (ts.filter (fun u => u.id != r.id))
        (some (encodeTasks (ts.filter (fun u => u.id != r.id)))),
       Except.ok ("The task was successfully removed.")) ∧
    (∀ u ∈ ts.filter (fun u => u.id != r.id), u.id ≠ r.id) ∧
    (ts.filter (fun u => u.id != r.id)).length < ts.length := by
  refine ⟨remove_task_ok _ ts r t rfl ht hid, ?_, length_filter_lt r.id ts t ht hid⟩
  intro u hu
  have := (List.mem_filter.mp hu).2
  simpa [bne_iff_ne] using this

/-- C10 witness: removing an id shared by two of three tasks succeeds and
deletes both matching tasks in the single call, leaving only the third. -/
theorem remove_deletes_all_matches_witness :
    ((Task.mk ("xxxxxxxx") ("1") ("1") false) ∈
      [Task.mk ("xxxxxxxx") ("1") ("1") false, Task.mk ("xxxxxxxx") ("2") ("2") true,
       Task.mk ("yyyyyyyy") ("3") ("3") false] ∧
     (Task.mk ("xxxxxxxx") ("1") ("1") false).id = (RemoveArgs.mk ("xxxxxxxx")).id) ∧
    ([Task.mk ("xxxxxxxx") ("1") ("1") false, Task.mk ("xxxxxxxx") ("2") ("2") true,
      Task.mk ("yyyyyyyy") ("3") ("3") false].filter
        (fun u => u.id != (RemoveArgs.mk ("xxxxxxxx")).id)).length = 1 ∧
    remove_task (Tasks.mk [] (some (encodeTasks
        [Task.mk ("xxxxxxxx") ("1") ("1") false, Task.mk ("xxxxxxxx") ("2") ("2") true,
         Task.mk ("yyyyyyyy") ("3") ("3") false]))) (RemoveArgs.mk ("xxxxxxxx")) =
      (Tasks.mk ([Task.mk ("xxxxxxxx") ("1") ("1") false, Task.mk ("xxxxxxxx") ("2") ("2") true,
          Task.mk ("yyyyyyyy") ("3") ("3") false].filter
            (fun u => u.id != (RemoveArgs.mk ("xxxxxxxx")).id))
        (some (encodeTasks ([Task.mk ("xxxxxxxx") ("1") ("1") false,
          Task.mk ("xxxxxxxx") ("2") ("2") true,
          Task.mk ("yyyyyyyy") ("3") ("3") false].filter
            (fun u => u.id != (RemoveArgs.mk ("xxxxxxxx")).id)))),
       Except.ok ("The task was successfully removed.")) :=
  ⟨⟨by decide, by decide⟩, by decide,
   (remove_deletes_all_matches
      [Task.mk ("xxxxxxxx") ("1") ("1") false, Task.mk ("xxxxxxxx") ("2") ("2") true,
       Task.mk ("yyyyyyyy") ("3") ("3") false] [] (RemoveArgs.mk ("xxxxxxxx"))
      (Task.mk ("xxxxxxxx") ("1") ("1") false) (by decide) (by decide)).1⟩

end TodoCli
